import Mathlib

set_option linter.unusedVariables false

namespace Tmux2Html

/-!
Shallow embedding of `src/tmux2html/main.py` (the `Renderer` class and the
pane-selection step of `main`).

Modelling conventions:
* Python strings are `List Char`; Python slicing with possibly negative
  indices is `pySliceIdx`.
* `self.chunks` is a `List Chunk`; a `Chunk.tag` is an HTML tag fragment of
  zero visible width, a `Chunk.text` holds the characters of a visible text
  fragment.  The source appends `self._escape_text(c)` for text; since
  `_escape_text` maps every source character to exactly one rendered cell,
  text chunks hold the pre-escape characters and `escape_text` is modelled
  separately as a pure function.
* Machine integers are `Int`/`Nat`; `self.opened` is an `Int` so that its
  non-negativity is a statement rather than a typing artefact.
* The `while` loop of `_wrap_line` is modelled with explicit fuel
  (`wrapLineF`); fuel `length` is sufficient whenever the pane width is at
  least 1 (proved below), which covers every call site of `_render`.  For
  width 0 the source loop does not terminate.
* `color.py` and `utils.py` are not under `src/`; the definitions marked
  `Modelled from the spec:` reconstruct the pieces of them that `main.py`
  calls, following the spec's words.
-/

/-- A Python color value as passed around by `main.py`: an `int` terminal
code or an RGB tuple.  `None` is modelled by `Option`. -/
inductive PyVal where
  | int (n : Int)
  | rgb (r g b : Nat)
  deriving DecidableEq

/-- Python truthiness of an optional color value: `None` and `0` are falsy,
every non-empty tuple is truthy. -/
def pyFalsy : Option PyVal → Bool
  | none => true
  | some (.int 0) => true
  | some _ => false

/-- Python `v < n` for an optional color value against an int.  For an int
this is integer comparison.  For a tuple, Python 2 compares by type name
(`'tuple' < 'int'` is `False`); under Python 3 the comparison in
`Renderer.open` would raise `TypeError`, modelled here as `False` as well
(`main.py` keeps Python 2 compatibility via the `cgi.escape` fallback). -/
def pyLt (v : Option PyVal) (n : Int) : Bool :=
  match v with
  | some (.int m) => m < n
  | _ => false

/-- One element of `self.chunks`: an HTML tag fragment (zero visible width)
or a visible text fragment (pre-escape characters). -/
inductive Chunk where
  | tag (s : String)
  | text (s : List Char)
  deriving DecidableEq

/-- The mutable state of a `Renderer`: `self.opened`, `self.chunks`,
`self.css` (an insertion-ordered dict) and `self.esc_style`. -/
structure RS where
  opened : Int
  chunks : List Chunk
  css : List (String × String)
  esc : List Int
  deriving DecidableEq

/-- A fresh renderer state. -/
def initRS : RS := ⟨0, [], [], []⟩

/-- Python dict assignment `d[k] = v` on an insertion-ordered association
list: an existing key keeps its position, a new key is appended. -/
def dictSet (k v : String) (d : List (String × String)) : List (String × String) :=
  if d.any (fun p => p.1 = k) then d.map (fun p => if p.1 = k then (k, v) else p)
  else d ++ [(k, v)]

/-- Python slice index normalisation for `l[:i]` / `l[i:]`: a negative `i`
counts from the end and clamps at 0. -/
def pySliceIdx (len : Nat) (i : Int) : Nat :=
  if i < 0 then ((len : Int) + i).toNat else min i.toNat len

/-- Python `s.split(sep)` for a one-character separator: always returns at
least one (possibly empty) part. -/
def splitOnChar (sep : Char) : List Char → List (List Char)
  | [] => [[]]
  | c :: cs =>
    match splitOnChar sep cs with
    | [] => [[]]
    | r :: rs => if c = sep then [] :: r :: rs else (c :: r) :: rs

/-- Modelled from the spec: the 16-entry basic/bright palette of
`color.term_to_rgb` (`color.py` is not under `src/`; spec §4.1: basic codes
0–7 map to a fixed 8-entry palette, 8–15 to the bright palette).  The claims
do not depend on the concrete RGB values. -/
def basicPalette : List (Nat × Nat × Nat) :=
  [(0, 0, 0), (205, 0, 0), (0, 205, 0), (205, 205, 0),
   (0, 0, 238), (205, 0, 205), (0, 205, 205), (229, 229, 229),
   (127, 127, 127), (255, 0, 0), (0, 255, 0), (255, 255, 0),
   (92, 92, 255), (255, 0, 255), (0, 255, 255), (255, 255, 255)]

/-- Modelled from the spec: `color.term_to_rgb` (`color.py` is not under
`src/`).  Spec §4.1: 0–15 palette, 16–231 a 6x6x6 cube, 232–255 a 24-step
grayscale ramp. -/
def term_to_rgb (n : Int) : Nat × Nat × Nat :=
  if 0 ≤ n ∧ n < 16 then basicPalette.getD n.toNat (0, 0, 0)
  else if 16 ≤ n ∧ n ≤ 231 then
    let m := (n - 16).toNat
    let lvl := fun k => if k = 0 then 0 else 40 * k + 55
    (lvl (m / 36), lvl (m / 6 % 6), lvl (m % 6))
  else if 232 ≤ n ∧ n ≤ 255 then
    let g := 8 + 10 * (n - 232).toNat
    (g, g, g)
  else (0, 0, 0)

/-- Two lowercase hex digits, Python `'{:02x}'.format` for a byte. -/
def hex2 (n : Nat) : String :=
  String.mk [Nat.digitChar (n / 16 % 16), Nat.digitChar (n % 16)]

/-- `Renderer.rgbhex`: falsy colors render as `'none'`, int codes go through
`term_to_rgb`, tuples are formatted directly. -/
def rgbhex (c : Option PyVal) (style : List Int) : String :=
  if pyFalsy c then "none"
  else
    match c with
    | some (.int n) =>
      let t := term_to_rgb n
      "#" ++ hex2 t.1 ++ hex2 t.2.1 ++ hex2 t.2.2
    | some (.rgb r g b) => "#" ++ hex2 r ++ hex2 g ++ hex2 b
    | none => "none"

/-- The class key computed by `Renderer.update_css`: `''` for `None`,
`'f9'`-style keys for int codes (with the bold `+8` promotion of basic
foregrounds when SGR 1 is active), `'f-rgb_r_g_b'`-style keys for tuples. -/
def cssKey (pfx : String) (cc : Option PyVal) (esc : List Int) : String :=
  match cc with
  | none => ""
  | some (.int n) =>
    let n := if pfx = "f" ∧ (1 : Int) ∈ esc ∧ n < 8 then n + 8 else n
    pfx ++ toString n
  | some (.rgb r g b) =>
    pfx ++ "-rgb_" ++ toString r ++ "_" ++ toString g ++ "_" ++ toString b

/-- The declaration text stored by `Renderer.update_css` (the promoted code
is also the one whose color is rendered, as in the source). -/
def cssVal (pfx : String) (v : PyVal) (esc : List Int) : String :=
  let style := if pfx = "f" then "color" else "background-color"
  let v' := match v with
    | .int n => PyVal.int (if pfx = "f" ∧ (1 : Int) ∈ esc ∧ n < 8 then n + 8 else n)
    | x => x
  style ++ ": " ++ rgbhex (some v') esc ++ ";"

/-- The `self.css` side effect of `Renderer.update_css`: no change for
`None`, otherwise a dict assignment under the computed key. -/
def cssUpd (pfx : String) (cc : Option PyVal) (esc : List Int)
    (css : List (String × String)) : List (String × String) :=
  match cc with
  | none => css
  | some v => dictSet (cssKey pfx (some v) esc) (cssVal pfx v esc) css

/-- `Renderer._style_classes`. -/
def style_classes (styles : List Int) : List String :=
  (if (1 : Int) ∈ styles ∧ (22 : Int) ∉ styles then ["sb"] else []) ++
  (if (3 : Int) ∈ styles ∧ (23 : Int) ∉ styles then ["si"] else []) ++
  (if (4 : Int) ∈ styles ∧ (24 : Int) ∉ styles then ["su"] else [])

/-- The `sb`-suppression test of `Renderer.open` (line 239):
`(not fg or fg < 16 or fg == 39) and 1 in self.esc_style`, applied to the
already-swapped foreground. -/
def boldSuppress (fg : Option PyVal) (esc : List Int) : Bool :=
  (pyFalsy fg ∨ pyLt fg 16 ∨ fg = some (.int 39)) ∧ (1 : Int) ∈ esc

/-- The class list assembled by `Renderer.open` from the already-swapped
foreground and background: optional extra class, foreground key, background
key, attribute classes, then the `sb` removal. -/
def openClasses (fgE bgE : Option PyVal) (esc : List Int) (cls : Option String) :
    List String :=
  let classes := (match cls with | some c => [c] | none => [])
  let classes := classes ++ (if cssKey "f" fgE esc ≠ "" then [cssKey "f" fgE esc] else [])
  let classes := classes ++ (if cssKey "b" bgE esc ≠ "" then [cssKey "b" bgE esc] else [])
  let classes := classes ++ style_classes esc
  if boldSuppress fgE esc ∧ "sb" ∈ classes then classes.erase "sb" else classes

/-- `' '.join` / `';'.join`. -/
def joinSep (sep : String) : List String → String
  | [] => ""
  | [a] => a
  | a :: rest => a ++ sep ++ joinSep sep (rest)

/-- The class list of `Renderer.open` from the unswapped arguments: the
reverse-video swap (line 228) happens before any class is computed. -/
def openClassList (fg bg : Option PyVal) (esc : List Int) (cls : Option String) :
    List String :=
  let p := if (7 : Int) ∈ esc then (bg, fg) else (fg, bg)
  openClasses p.1 p.2 esc cls

/-- The HTML fragment appended by `Renderer.open` (the tag argument is
always `'span'` at every call site of the source). -/
def openHtml (fg bg : Option PyVal) (esc : List Int) (seq cls : Option String) :
    String :=
  let classes := openClassList fg bg esc cls
  let attrs := (if classes ≠ [] then ["class=\"" ++ joinSep " " classes ++ "\""] else [])
    ++ (match seq with | some s => ["data-seq=\"" ++ s ++ "\""] | none => [])
  "<span " ++ joinSep " " attrs ++ ">"

/-- The `self.css` side effect of `Renderer.open`: `update_css('f', fg)`
then `update_css('b', bg)` on the swapped values. -/
def openCss (fg bg : Option PyVal) (esc : List Int)
    (css : List (String × String)) : List (String × String) :=
  let p := if (7 : Int) ∈ esc then (bg, fg) else (fg, bg)
  cssUpd "b" p.2 esc (cssUpd "f" p.1 esc css)

/-- `Renderer.open`: swaps on reverse video, registers CSS, appends one
opening tag and increments `self.opened`. -/
def openTag (fg bg : Option PyVal) (seq cls : Option String) (rs : RS) : RS :=
  { rs with
      opened := rs.opened + 1,
      css := openCss fg bg rs.esc rs.css,
      chunks := rs.chunks ++ [Chunk.tag (openHtml fg bg rs.esc seq cls)] }

/-- `Renderer.close`: a no-op unless a tag is open; `closeall` drains the
counter. -/
def closeTag (tag : String) (closeall : Bool) (rs : RS) : RS :=
  if rs.opened > 0 then
    if closeall then
      { rs with
          chunks := rs.chunks ++ List.replicate rs.opened.toNat (Chunk.tag ("</" ++ tag ++ ">")),
          opened := 0 }
    else
      { rs with
          chunks := rs.chunks ++ [Chunk.tag ("</" ++ tag ++ ">")],
          opened := rs.opened - 1 }
  else rs

/-- `html.escape` on one character (quote=True: `&`, `<`, `>`, `"`, `'`). -/
def escChar (c : Char) : List Char :=
  if c = '&' then ("&amp;").data
  else if c = '<' then ("&lt;").data
  else if c = '>' then ("&gt;").data
  else if c = '"' then ("&quot;").data
  else if c = '\'' then ("&#x27;").data
  else [c]

/-- `html.escape` on a string. -/
def htmlEscape (s : List Char) : List Char := s.flatMap escChar

/-- The glyph placeholder produced by `Renderer._escape_text` for a
character in the range of the regex `[\u0080-￿]`: a span holding a
single space whose `data-glyph` attribute carries the lowercase hex
codepoint. -/
def glyphSpan (c : Char) : List Char :=
  ("<span class=\"u\" data-glyph=\"&#x" ++ String.mk (Nat.toDigits 16 c.toNat)
    ++ ";\"> </span>").data

/-- The `re.sub` pass of `Renderer._escape_text`: the pattern
`[\u0080-￿]` matches codepoints 0x80 through 0xFFFF only. -/
def glyphSub (l : List Char) : List Char :=
  l.flatMap (fun c =>
    if 0x80 ≤ c.toNat ∧ c.toNat ≤ 0xffff then glyphSpan c else [c])

/-- `Renderer._escape_text`: HTML-escape, then replace matched characters
with glyph placeholders. -/
def escape_text (s : List Char) : List Char := glyphSub (htmlEscape s)

/-- The loop of `Renderer._wrap_line` with explicit fuel.  One iteration
runs while `length and length > maxlength`; `cut = maxlength - length` is
negative there, so the Python slices `line[:cut]` / `line[cut:]` cut
`length - maxlength` characters off the end.  Returns the emitted slices
(each is followed by a `'\n'` chunk at the call site), the final running
length and the remaining line; `none` when the fuel runs out before the
loop exits. -/
def wrapLineF : Nat → List Char → Nat → Nat → Option (List (List Char) × Nat × List Char)
  | 0, line, length, maxlength =>
    if length ≠ 0 ∧ length > maxlength then none else some ([], length, line)
  | fuel + 1, line, length, maxlength =>
    if length ≠ 0 ∧ length > maxlength then
      let idx := pySliceIdx line.length ((maxlength : Int) - (length : Int))
      match wrapLineF fuel (line.drop idx) (line.drop idx).length maxlength with
      | none => none
      | some (sl, l, ln) => some (line.take idx :: sl, l, ln)
    else some ([], length, line)

/-- `Renderer._wrap_line` as used by `_render`.  Fuel `length` is provably
sufficient whenever `maxlength ≥ 1` (every `_render` call has
`maxlength = size[0]`); for `maxlength = 0` the source loop diverges and the
default branch is never relied upon by any theorem. -/
def wrap_line (line : List Char) (length maxlength : Nat) :
    List (List Char) × Nat × List Char :=
  (wrapLineF length line length maxlength).getD ([], length, line)

/-- The chunks appended by the `_wrap_line` loop: each emitted slice is an
escaped text chunk followed by a newline chunk. -/
def emitSlices (sl : List (List Char)) : List Chunk :=
  sl.flatMap (fun s => [Chunk.text s, Chunk.text ['\n']])

/-- Split at the first `'m'`, for the regex `\x1b\[([^m]*)m`. -/
def splitFirstM : List Char → Option (List Char × List Char)
  | [] => none
  | c :: cs =>
    if c = 'm' then some ([], cs)
    else (splitFirstM cs).map (fun p => (c :: p.1, p.2))

/-- One step of `re.finditer(r'\x1b\[([^m]*)m', line)`: the literal text up
to the first match, and on a match the parameter characters and the rest of
the line.  A `'\x1b['` with no later `'m'` cannot start a match, and since
no `'m'` follows it at all, no later match exists either. -/
def scanSGR : List Char → List Char × Option (List Char × List Char)
  | [] => ([], none)
  | c :: cs =>
    if c = '\x1b' then
      match cs with
      | '[' :: rest =>
        match splitFirstM rest with
        | some p => ([], some p)
        | none => (c :: cs, none)
      | _ =>
        match scanSGR cs with
        | (lit, r) => (c :: lit, r)
    else
      match scanSGR cs with
      | (lit, r) => (c :: lit, r)

/-- All matches of the SGR pattern in a line, with fuel (each match consumes
at least three characters, so fuel `line.length` is sufficient). -/
def sgrRunsF : Nat → List Char → List (List Char × List Char) × List Char
  | 0, l => ([], l)
  | fuel + 1, l =>
    match scanSGR l with
    | (_, none) => ([], l)
    | (lit, some (params, rest)) =>
      let p := sgrRunsF fuel rest
      ((lit, params) :: p.1, p.2)

/-- The runs of a line: pairs of (literal text, SGR parameter string) for
each match, and the literal tail after the last match. -/
def sgrRuns (l : List Char) : List (List Char × List Char) × List Char :=
  sgrRunsF l.length l

/-- Add an SGR attribute code to the active set. -/
def addCode (c : Int) (st : List Int) : List Int :=
  if c ∈ st then st else st ++ [c]

/-- Modelled from the spec: the code interpreter of `color.parse_escape`
(`color.py` is not under `src/`).  The first argument is fuel; every step
consumes at least one token, so fuel `tokens.length` is sufficient.
Spec §4.2: `0` resets all; `1/3/4/7` set
bold/italic/underline/reverse; `22/23/24` clear bold/italic/underline; `27`
clears reverse; `30–37`/`40–47` basic, `90–97`/`100–107` bright,
`38;5;N`/`48;5;N` 256-palette, `38;2;R;G;B`/`48;2;R;G;B` truecolor;
`39`/`49` set the default sentinel (kept as the int so the bold-suppression
test on `fg == 39` can still fire); unrecognized codes are ignored. -/
def applySGR : Nat → List (Option Nat) → Option PyVal × Option PyVal × List Int →
    Option PyVal × Option PyVal × List Int
  | 0, _, st => st
  | _ + 1, [], st => st
  | fuel + 1, none :: rest, st => applySGR fuel rest st
  | fuel + 1, some n :: rest, (f, b, st) =>
    if n = 0 then applySGR fuel rest (none, none, [])
    else if n = 1 ∨ n = 3 ∨ n = 4 ∨ n = 7 then applySGR fuel rest (f, b, addCode (n : Int) st)
    else if n = 22 then applySGR fuel rest (f, b, st.erase 1)
    else if n = 23 then applySGR fuel rest (f, b, st.erase 3)
    else if n = 24 then applySGR fuel rest (f, b, st.erase 4)
    else if n = 27 then applySGR fuel rest (f, b, st.erase 7)
    else if n = 38 then
      match rest with
      | some 5 :: some m :: rest2 => applySGR fuel rest2 (some (.int (m : Nat)), b, st)
      | some 2 :: some r :: some g :: some bl :: rest2 =>
        applySGR fuel rest2 (some (.rgb r g bl), b, st)
      | _ => applySGR fuel rest (f, b, st)
    else if n = 48 then
      match rest with
      | some 5 :: some m :: rest2 => applySGR fuel rest2 (f, some (.int (m : Nat)), st)
      | some 2 :: some r :: some g :: some bl :: rest2 =>
        applySGR fuel rest2 (f, some (.rgb r g bl), st)
      | _ => applySGR fuel rest (f, b, st)
    else if 30 ≤ n ∧ n ≤ 37 then applySGR fuel rest (some (.int ((n : Int) - 30)), b, st)
    else if 40 ≤ n ∧ n ≤ 47 then applySGR fuel rest (f, some (.int ((n : Int) - 40)), st)
    else if 90 ≤ n ∧ n ≤ 97 then applySGR fuel rest (some (.int ((n : Int) - 90 + 8)), b, st)
    else if 100 ≤ n ∧ n ≤ 107 then applySGR fuel rest (f, some (.int ((n : Int) - 100 + 8)), st)
    else if n = 39 then applySGR fuel rest (some (.int 39), b, st)
    else if n = 49 then applySGR fuel rest (f, some (.int 49), st)
    else applySGR fuel rest (f, b, st)

/-- A decimal parameter token, `none` for a non-numeric token. -/
def digitsVal? (l : List Char) : Option Nat :=
  if l ≠ [] ∧ l.all (fun c => c.isDigit) then
    some (l.foldl (fun a c => a * 10 + (c.toNat - 48)) 0)
  else none

/-- Modelled from the spec: `color.parse_escape` — split the parameter
string on `';'` and interpret the codes left to right, threading the style
list (mutated in place in the source). -/
def parse_escape (params : List Char) (f b : Option PyVal) (st : List Int) :
    Option PyVal × Option PyVal × List Int :=
  let toks := (splitOnChar ';' params).map digitsVal?
  applySGR toks.length toks (f, b, st)

/-- The `for m in re.finditer(...)` loop body of `Renderer._render`
(lines 304–328), iterated over the runs of one line.  `first` is
`last_i == 0` (true only in the first iteration, since a match consumes at
least three characters). -/
def renderRuns (w : Nat) : List (List Char × List Char) → Bool →
    Option PyVal → Option PyVal → Nat → Nat → RS →
    Option PyVal × Option PyVal × Nat × Nat × RS
  | [], _, fg, bg, line_l, line_c, rs => (fg, bg, line_l, line_c, rs)
  | (lit, params) :: rest, first, fg, bg, line_l, line_c, rs =>
    let rs := if lit ≠ [] ∧ first ∧ rs.opened = 0 then openTag fg bg none none rs else rs
    let line_l := line_l + lit.length
    let wl := wrap_line lit line_l w
    let line_c := line_c + wl.1.length
    let rs := { rs with chunks := rs.chunks ++ emitSlices wl.1 ++ [Chunk.text wl.2.2] }
    let rs := if first then closeTag "span" false rs else rs
    let pe := parse_escape params fg bg rs.esc
    let rs := { rs with esc := pe.2.2 }
    let rs := closeTag "span" false rs
    let rs := openTag pe.1 pe.2.1 (some (String.mk params)) none rs
    renderRuns w rest false pe.1 pe.2.1 wl.2.1 line_c rs

/-- The tail of the per-line loop of `Renderer._render` (lines 330–353):
the text after the last SGR match, its wrap, the conditional right-padding,
the close-all, the non-selectable pad span and the conditional line feed. -/
def renderTail (w h : Nat) (isLast : Bool) (fg bg : Option PyVal)
    (c0 : List Char) (line_l line_c : Nat) (rs : RS) : Nat × RS :=
  let c_len := c0.length
  let line_l := line_l + c_len
  let st :=
    if c0 ≠ [] ∨ c_len ≠ w then
      let rs := if rs.opened = 0 then openTag fg bg none none rs else rs
      let wl := wrap_line c0 line_l w
      let rs := { rs with chunks := rs.chunks ++ emitSlices wl.1 }
      if line_c + wl.1.length < h then
        (List.replicate (w - wl.2.1) ' ', line_c + wl.1.length, wl.2.2, rs)
      else (([] : List Char), line_c, wl.2.2, rs)
    else (([] : List Char), line_c, c0, rs)
  let pad := st.1
  let line_c := st.2.1
  let c := st.2.2.1
  let rs := st.2.2.2
  let rs := { rs with chunks := rs.chunks ++ [Chunk.text c] }
  let rs := closeTag "span" true rs
  let rs :=
    if pad ≠ [] then
      let rs := openTag none none none (some "ns") rs
      let rs := { rs with chunks := rs.chunks ++ [Chunk.text pad] }
      closeTag "span" false rs
    else rs
  if c ≠ [] ∨ isLast = false then
    (line_c + 1, { rs with chunks := rs.chunks ++ [Chunk.text ['\n']] })
  else (line_c, rs)

/-- One iteration of `for line_i, line in enumerate(lines)`. -/
def renderLine (w h : Nat) (isLast : Bool) (fg bg : Option PyVal)
    (line : List Char) (line_c : Nat) (rs : RS) :
    Option PyVal × Option PyVal × Nat × RS :=
  let rt := sgrRuns line
  let rr := renderRuns w rt.1 true fg bg 0 line_c rs
  let tl := renderTail w h isLast rr.1 rr.2.1 rt.2 rr.2.2.1 rr.2.2.2.1 rr.2.2.2.2
  (rr.1, rr.2.1, tl.1, tl.2)

/-- The loop over the lines of the pane text. -/
def renderLines (w h : Nat) : List (List Char) → Option PyVal → Option PyVal →
    Nat → RS → Nat × RS
  | [], _, _, line_c, rs => (line_c, rs)
  | [l], fg, bg, line_c, rs =>
    let r := renderLine w h true fg bg l line_c rs
    (r.2.2.1, r.2.2.2)
  | l :: l2 :: ls, fg, bg, line_c, rs =>
    let r := renderLine w h false fg bg l line_c rs
    renderLines w h (l2 :: ls) r.1 r.2.1 r.2.2.1 r.2.2.2

/-- The blank under-fill rows of `_render` (lines 355–361): full-width space
runs, each followed by a line feed. -/
def blankRows (w : Nat) : Nat → List Chunk
  | 0 => []
  | n + 1 => [Chunk.text (List.replicate w ' '), Chunk.text ['\n']] ++ blankRows w n

/-- `Renderer._render`: reset the style state, open the `<pre>` block,
render every logical line, under-fill to the pane height and close the
block. -/
def render (s : List Char) (w h : Nat) (rs : RS) : RS :=
  let rs := { rs with esc := [] }
  let rs := { rs with chunks := rs.chunks ++ [Chunk.tag "<pre>"] }
  let r := renderLines w h (splitOnChar '\n' s) none none 0 rs
  let line_c := r.1
  let rs := r.2
  let rs :=
    if line_c < h then
      let rs := openTag none none none (some "ns") rs
      let rs := { rs with chunks := rs.chunks ++ blankRows w (h - line_c) }
      closeTag "span" true rs
    else rs
  { rs with chunks := rs.chunks ++ [Chunk.tag "</pre>"] }

/-- The visible characters of the chunk stream (tags have no width; each
text-chunk character occupies exactly one cell after escaping). -/
def visText : List Chunk → List Char
  | [] => []
  | Chunk.tag _ :: r => visText r
  | Chunk.text s :: r => s ++ visText r

/-- The physical rows of an emitted block: the visible text split on line
feeds. -/
def rowsOf (chunks : List Chunk) : List (List Char) := splitOnChar '\n' (visText chunks)

/-- The grid property of spec §8: exactly `h` newline-terminated physical
rows, each logically `w` columns wide.  (`splitOnChar` yields a final empty
part exactly when the visible text is `'\n'`-terminated.) -/
def gridOK (w h : Nat) (chunks : List Chunk) : Prop :=
  (rowsOf chunks).length = h + 1 ∧ (rowsOf chunks).getLast? = some [] ∧
    ∀ r ∈ (rowsOf chunks).dropLast, r.length = w

instance decGridOK (w h : Nat) (chunks : List Chunk) : Decidable (gridOK w h chunks) := by
  unfold gridOK
  infer_instance

/-- The number of slices emitted by `_wrap_line` for a run of length `len`
against width `w ≥ 1`, starting from a fresh zero column count. -/
def lineSliceCount (w len : Nat) : Nat := if len ≤ w then 0 else (len - 1) / w

/-- The number of physical rows one logical line occupies: its wrap slices
plus its conditional trailing line feed (`if c or line_i < len(lines)-1`). -/
def lineRows (w : Nat) (isLast : Bool) (len : Nat) : Nat :=
  lineSliceCount w len + (if len ≠ 0 ∨ isLast = false then 1 else 0)

/-- The number of physical rows the wrapped content of a pane text occupies. -/
def contentRows (w : Nat) : List (List Char) → Nat
  | [] => 0
  | [l] => lineRows w true l.length
  | l :: l2 :: ls => lineRows w false l.length + contentRows w (l2 :: ls)

/-- The chunks of the non-selectable padding span: `open(None, None,
cls='ns')` also extends the active attribute classes, so the opening tag
depends on the style state (it is plain `<span class="ns">` whenever
`esc_style` is empty, as in escape-free renders). -/
def nsPadChunks (esc : List Int) (n : Nat) : List Chunk :=
  [Chunk.tag (openHtml none none esc none (some "ns")),
   Chunk.text (List.replicate n ' '), Chunk.tag "</span>"]

/-- Concatenation of rows, each terminated by a line feed. -/
def rowsJoin (rws : List (List Char)) : List Char :=
  rws.flatMap (fun r => r ++ ['\n'])

/-- A pane tree node as consumed by `Renderer._render_pane` / `main`. -/
inductive Pane where
  | node (identifier : Nat) (x y : Nat) (size : Nat × Nat)
      (panes : List Pane) (vertical : Bool)

mutual
/-- Modelled from the spec: `utils.pane_list` (`utils.py` is not under
`src/`).  Spec §6: the pane index selects "the n-th leaf pane in depth-first
document order of the tree". -/
def pane_list : Pane → List Pane
  | .node i x y s [] v => [.node i x y s [] v]
  | .node _ _ _ _ (p :: ps) _ => paneListAux (p :: ps)

/-- Depth-first leaves of a forest of panes. -/
def paneListAux : List Pane → List Pane
  | [] => []
  | p :: ps => pane_list p ++ paneListAux ps
end

/-- The pane-selection step of `main` (lines 438–440): `panes[pane]`, whose
out-of-range failure (Python `IndexError`, the spec's `PaneNotFound`
condition) is modelled as `none`. -/
def selectPane (root : Pane) (idx : Nat) : Option Pane :=
  (pane_list root)[idx]?

/-- One `Renderer.open` / `Renderer.close` call, for the tag-counter
invariant (every call site closes the default `'span'` tag). -/
inductive ROp where
  | opn (fg bg : Option PyVal) (seq cls : Option String)
  | cls (closeall : Bool)

/-- Run a sequence of open/close calls against a renderer state. -/
def runOps : List ROp → RS → RS
  | [], rs => rs
  | ROp.opn fg bg seq cls :: rest, rs => runOps rest (openTag fg bg seq cls rs)
  | ROp.cls b :: rest, rs => runOps rest (closeTag "span" b rs)

/-- Chunks that are opening span tags (every tag emitted by `open` starts
with `"<span "`). -/
def openSpanCount (l : List Chunk) : Nat :=
  l.countP (fun c => match c with
    | Chunk.tag s => s.data.take 6 = ("<span ").data
    | _ => false)

/-- Chunks that are closing span tags. -/
def closeSpanCount (l : List Chunk) : Nat :=
  l.countP (fun c => c = Chunk.tag "</span>")

/-! ### The `_wrap_line` loop -/

theorem pySliceIdx_of_lt {len length ml : Nat} (h : ml < length) :
    pySliceIdx len ((ml : Int) - (length : Int)) = len - (length - ml) := by
  unfold pySliceIdx
  rw [if_pos (by omega)]
  omega

theorem wrapLineF_isSome {ml : Nat} (hml : 1 ≤ ml) :
    ∀ (fuel : Nat) (line : List Char) (length : Nat), length ≤ fuel →
      (wrapLineF fuel line length ml).isSome := by
  intro fuel
  induction fuel with
  | zero =>
    intro line length h
    have : ¬(length ≠ 0 ∧ length > ml) := by omega
    simp [wrapLineF, this]
  | succ n ih =>
    intro line length h
    by_cases hc : length ≠ 0 ∧ length > ml
    · have hidx : pySliceIdx line.length ((ml : Int) - (length : Int)) =
        line.length - (length - ml) := pySliceIdx_of_lt hc.2
      have hlen : (line.drop (pySliceIdx line.length ((ml : Int) - (length : Int)))).length ≤ n := by
        rw [List.length_drop, hidx]; omega
      have := ih (line.drop (pySliceIdx line.length ((ml : Int) - (length : Int))))
        (line.drop (pySliceIdx line.length ((ml : Int) - (length : Int)))).length hlen
      simp only [wrapLineF, if_pos hc]
      cases hr : wrapLineF n
          (line.drop (pySliceIdx line.length ((ml : Int) - (length : Int))))
          (line.drop (pySliceIdx line.length ((ml : Int) - (length : Int)))).length ml with
      | none => rw [hr] at this; simp at this
      | some v => simp [hr]
    · simp [wrapLineF, hc]

theorem wrapLineF_zero_none :
    ∀ (fuel : Nat) (line : List Char) (length : Nat), line ≠ [] → 0 < length →
      wrapLineF fuel line length 0 = none := by
  intro fuel
  induction fuel with
  | zero =>
    intro line length hl h0
    have : length ≠ 0 ∧ length > 0 := by omega
    simp [wrapLineF, this]
  | succ n ih =>
    intro line length hl h0
    have hc : length ≠ 0 ∧ length > 0 := by omega
    have hidx : pySliceIdx line.length ((0 : Int) - (length : Int)) =
        line.length - length := by
      have := @pySliceIdx_of_lt line.length length 0 h0
      simpa using this
    have hpos : 0 < (line.drop (pySliceIdx line.length ((0 : Int) - (length : Int)))).length := by
      rw [List.length_drop, hidx]
      have hll : 0 < line.length := List.length_pos.mpr hl
      omega
    have hne : line.drop (pySliceIdx line.length ((0 : Int) - (length : Int))) ≠ [] := by
      intro hE
      rw [hE] at hpos
      simp at hpos
    simp only [wrapLineF, if_pos hc, Nat.cast_zero]
    rw [ih _ _ hne hpos]

theorem lineSliceCount_step {w len : Nat} (hw : 1 ≤ w) (h : w < len) :
    lineSliceCount w len = lineSliceCount w (len - w) + 1 := by
  unfold lineSliceCount
  rw [if_neg (by omega)]
  have h1 : len - 1 = (len - 1 - w) + w := by omega
  rw [h1, Nat.add_div_right _ hw]
  by_cases h2 : len - w ≤ w
  · rw [if_pos h2, Nat.div_eq_of_lt (by omega)]
  · rw [if_neg h2]
    have h3 : len - 1 - w = len - w - 1 := by omega
    rw [h3]

theorem wrapLineF_run_spec {ml : Nat} (hml : 1 ≤ ml) :
    ∀ (fuel : Nat) (line : List Char), line.length ≤ fuel →
      ∃ sl rem,
        wrapLineF fuel line line.length ml = some (sl, rem.length, rem) ∧
        sl.length = lineSliceCount ml line.length ∧
        (∀ s ∈ sl, s.length = ml) ∧
        sl.flatten ++ rem = line ∧
        rem.length ≤ ml ∧
        rem.length = line.length - sl.length * ml ∧
        (line ≠ [] → rem ≠ []) := by
  intro fuel
  induction fuel with
  | zero =>
    intro line h
    have hl : line = [] := by
      cases line with
      | nil => rfl
      | cons a l => simp at h
    subst hl
    refine ⟨[], [], ?_, ?_, ?_, ?_, ?_, ?_, ?_⟩ <;>
      simp [wrapLineF, lineSliceCount]
  | succ n ih =>
    intro line h
    by_cases hc : line.length ≤ ml
    · have hcond : ¬(line.length ≠ 0 ∧ line.length > ml) := by omega
      refine ⟨[], line, ?_, ?_, ?_, ?_, ?_, ?_, ?_⟩ <;>
        simp [wrapLineF, hcond, lineSliceCount, hc]
    · have hlt : ml < line.length := by omega
      have hcond : line.length ≠ 0 ∧ line.length > ml := by omega
      have hidx : pySliceIdx line.length ((ml : Int) - (line.length : Int)) = ml := by
        rw [pySliceIdx_of_lt hlt]; omega
      have hdl : (line.drop ml).length = line.length - ml := List.length_drop ml line
      have hrec := ih (line.drop ml) (by omega)
      obtain ⟨sl, rem, heq, hcount, hslice, hflat, hremle, hremlen, hremne⟩ := hrec
      refine ⟨line.take ml :: sl, rem, ?_, ?_, ?_, ?_, hremle, ?_, ?_⟩
      · simp only [wrapLineF, if_pos hcond, hidx]
        rw [heq]
      · simp only [List.length_cons, hcount, hdl] at *
        rw [← lineSliceCount_step hml hlt]
      · intro s hs
        rcases List.mem_cons.mp hs with h1 | h1
        · subst h1; rw [List.length_take]; omega
        · exact hslice s h1
      · simp only [List.flatten_cons, List.append_assoc, hflat]
        exact List.take_append_drop ml line
      · rw [hremlen, hdl, List.length_cons]
        have : (sl.length + 1) * ml = sl.length * ml + ml := by ring
        omega
      · intro hne
        apply hremne
        intro hE
        have := congrArg List.length hE
        rw [hdl] at this
        simp at this
        omega

theorem wrap_line_run_spec {w : Nat} (hw : 1 ≤ w) (line : List Char) :
    ∃ sl rem,
      wrap_line line line.length w = (sl, rem.length, rem) ∧
      sl.length = lineSliceCount w line.length ∧
      (∀ s ∈ sl, s.length = w) ∧
      sl.flatten ++ rem = line ∧
      rem.length ≤ w ∧
      rem.length = line.length - sl.length * w ∧
      (line ≠ [] → rem ≠ []) := by
  obtain ⟨sl, rem, heq, h2, h3, h4, h5, h6, h7⟩ :=
    wrapLineF_run_spec hw line.length line (le_refl _)
  exact ⟨sl, rem, by rw [wrap_line, heq]; rfl, h2, h3, h4, h5, h6, h7⟩

theorem wrapLineF_some_le :
    ∀ (fuel : Nat) (line : List Char) (length ml : Nat) (sl : List (List Char))
      (l' : Nat) (rem : List Char),
      wrapLineF fuel line length ml = some (sl, l', rem) → l' ≤ ml := by
  intro fuel
  induction fuel with
  | zero =>
    intro line length ml sl l' rem h
    by_cases hc : length ≠ 0 ∧ length > ml
    · simp [wrapLineF, hc] at h
    · simp only [wrapLineF, if_neg hc, Option.some.injEq, Prod.mk.injEq] at h
      obtain ⟨h1, h2, h3⟩ := h
      omega
  | succ n ih =>
    intro line length ml sl l' rem h
    by_cases hc : length ≠ 0 ∧ length > ml
    · simp only [wrapLineF, if_pos hc] at h
      cases hr : wrapLineF n
          (line.drop (pySliceIdx line.length ((ml : Int) - (length : Int))))
          (line.drop (pySliceIdx line.length ((ml : Int) - (length : Int)))).length ml with
      | none => rw [hr] at h; simp at h
      | some v =>
        obtain ⟨sl0, l0, rem0⟩ := v
        rw [hr] at h
        simp only [Option.some.injEq, Prod.mk.injEq] at h
        obtain ⟨h1, h2, h3⟩ := h
        subst h2
        exact ih _ _ _ _ _ _ hr
    · simp only [wrapLineF, if_neg hc, Option.some.injEq, Prod.mk.injEq] at h
      obtain ⟨h1, h2, h3⟩ := h
      omega

theorem wrap_line_length_le (line : List Char) (length w : Nat) (hw : 1 ≤ w) :
    (wrap_line line length w).2.1 ≤ w := by
  have hs := wrapLineF_isSome hw length line length (le_refl _)
  cases hr : wrapLineF length line length w with
  | none => rw [hr] at hs; simp at hs
  | some v =>
    obtain ⟨sl, l', rem⟩ := v
    have hle := wrapLineF_some_le length line length w sl l' rem hr
    rw [wrap_line, hr]
    simpa using hle

/-! ### The SGR scanner and line splitting -/

theorem scanSGR_no_esc {l : List Char} (h : '\x1b' ∉ l) : scanSGR l = (l, none) := by
  induction l with
  | nil => rfl
  | cons c cs ih =>
    have hc : c ≠ '\x1b' := fun hE => h (hE ▸ List.mem_cons_self c cs)
    have hcs : '\x1b' ∉ cs := fun hE => h (List.mem_cons_of_mem c hE)
    simp only [scanSGR, if_neg hc, ih hcs]

theorem sgrRuns_no_esc {l : List Char} (h : '\x1b' ∉ l) : sgrRuns l = ([], l) := by
  show sgrRunsF l.length l = ([], l)
  cases hl : l.length with
  | zero => simp [sgrRunsF]
  | succ n => simp [sgrRunsF, scanSGR_no_esc h]

theorem splitOnChar_ne_nil (sep : Char) (l : List Char) : splitOnChar sep l ≠ [] := by
  induction l with
  | nil => simp [splitOnChar]
  | cons c cs ih =>
    cases h : splitOnChar sep cs with
    | nil => exact absurd h ih
    | cons r rs =>
      simp only [splitOnChar, h]
      split <;> simp

theorem splitOnChar_sep_not_mem (sep : Char) :
    ∀ (l : List Char), ∀ r ∈ splitOnChar sep l, sep ∉ r := by
  intro l
  induction l with
  | nil => intro r hr; simp [splitOnChar] at hr; simp [hr]
  | cons c cs ih =>
    intro r hr
    cases h : splitOnChar sep cs with
    | nil => exact absurd h (splitOnChar_ne_nil sep cs)
    | cons r0 rs0 =>
      simp only [splitOnChar, h] at hr
      by_cases hc : c = sep
      · rw [if_pos hc] at hr
        rcases List.mem_cons.mp hr with h1 | h1
        · simp [h1]
        · exact ih r (h ▸ h1)
      · rw [if_neg hc] at hr
        rcases List.mem_cons.mp hr with h1 | h1
        · subst h1
          intro hmem
          rcases List.mem_cons.mp hmem with h2 | h2
          · exact hc h2.symm
          · exact ih r0 (h ▸ List.mem_cons_self r0 rs0) h2
        · exact ih r (h ▸ List.mem_cons_of_mem r0 h1)

theorem splitOnChar_subset (sep : Char) :
    ∀ (l : List Char), ∀ r ∈ splitOnChar sep l, ∀ a ∈ r, a ∈ l := by
  intro l
  induction l with
  | nil => intro r hr a ha; simp [splitOnChar] at hr; subst hr; simp at ha
  | cons c cs ih =>
    intro r hr a ha
    cases h : splitOnChar sep cs with
    | nil => exact absurd h (splitOnChar_ne_nil sep cs)
    | cons r0 rs0 =>
      simp only [splitOnChar, h] at hr
      by_cases hc : c = sep
      · rw [if_pos hc] at hr
        rcases List.mem_cons.mp hr with h1 | h1
        · subst h1; simp at ha
        · exact List.mem_cons_of_mem c (ih r (h ▸ h1) a ha)
      · rw [if_neg hc] at hr
        rcases List.mem_cons.mp hr with h1 | h1
        · subst h1
          rcases List.mem_cons.mp ha with h2 | h2
          · exact h2 ▸ List.mem_cons_self c cs
          · exact List.mem_cons_of_mem c
              (ih r0 (h ▸ List.mem_cons_self r0 rs0) a h2)
        · exact List.mem_cons_of_mem c (ih r (h ▸ List.mem_cons_of_mem r0 h1) a ha)

theorem splitOnChar_append_sep {sep : Char} :
    ∀ (r t : List Char), sep ∉ r →
      splitOnChar sep (r ++ sep :: t) = r :: splitOnChar sep t := by
  intro r
  induction r with
  | nil =>
    intro t _
    cases ht : splitOnChar sep t with
    | nil => exact absurd ht (splitOnChar_ne_nil sep t)
    | cons r0 rs0 => simp [splitOnChar, ht]
  | cons c r' ih =>
    intro t hmem
    have hc : c ≠ sep := fun hE => hmem (hE ▸ List.mem_cons_self c r')
    have hr' : sep ∉ r' := fun hE => hmem (List.mem_cons_of_mem c hE)
    have hrec := ih t hr'
    show splitOnChar sep (c :: (r' ++ sep :: t)) = (c :: r') :: splitOnChar sep t
    cases hsp : splitOnChar sep (r' ++ sep :: t) with
    | nil => exact absurd hsp (splitOnChar_ne_nil sep _)
    | cons r0 rs0 =>
      rw [hrec] at hsp
      injection hsp with h1 h2
      simp only [splitOnChar, hrec]
      rw [if_neg (fun hE => hc hE)]

theorem splitOnChar_rowsJoin :
    ∀ (rws : List (List Char)), (∀ r ∈ rws, '\n' ∉ r) →
      splitOnChar '\n' (rowsJoin rws) = rws ++ [[]] := by
  intro rws
  induction rws with
  | nil => intro _; rfl
  | cons r rest ih =>
    intro h
    have h1 : rowsJoin (r :: rest) = r ++ '\n' :: rowsJoin rest := by
      simp [rowsJoin, List.flatMap_cons, List.append_assoc]
    rw [h1, splitOnChar_append_sep r (rowsJoin rest) (h r (List.mem_cons_self r rest)),
      ih (fun x hx => h x (List.mem_cons_of_mem r hx))]
    rfl

theorem rowsJoin_append (a b : List (List Char)) :
    rowsJoin (a ++ b) = rowsJoin a ++ rowsJoin b :=
  List.flatMap_append a b _

theorem visText_append (a b : List Chunk) : visText (a ++ b) = visText a ++ visText b := by
  induction a with
  | nil => rfl
  | cons c cs ih =>
    cases c with
    | tag s => simpa [visText] using ih
    | text s => simp [visText, ih, List.append_assoc]

theorem visText_emitSlices (sl : List (List Char)) :
    visText (emitSlices sl) = rowsJoin sl := by
  induction sl with
  | nil => rfl
  | cons s rest ih =>
    simp only [emitSlices, List.flatMap_cons, rowsJoin] at *
    simp [visText, visText_append, ih, List.append_assoc]

theorem visText_blankRows (w : Nat) :
    ∀ n, visText (blankRows w n) =
      rowsJoin (List.replicate n (List.replicate w ' ')) := by
  intro n
  induction n with
  | zero => rfl
  | succ m ih =>
    simp only [blankRows, List.replicate_succ, rowsJoin, List.flatMap_cons] at *
    simp [visText, ih, List.append_assoc]

/-! ### Characterisation of one escape-free line of `_render` -/

theorem openCss_none_none (esc : List Int) (css : List (String × String)) :
    openCss none none esc css = css := by
  unfold openCss
  split <;> rfl

theorem renderTail_spec (w h : Nat) (hw : 1 ≤ w) (isLast : Bool) (fg bg : Option PyVal)
    (c0 : List Char) (line_l lc : Nat) (rs : RS) (hop : rs.opened = 0)
    (sl : List (List Char)) (l' : Nat) (rem : List Char)
    (hwl : wrap_line c0 (line_l + c0.length) w = (sl, l', rem)) :
    renderTail w h isLast fg bg c0 line_l lc rs =
      ((if lc + sl.length < h then lc + sl.length else lc) +
          (if rem ≠ [] ∨ isLast = false then 1 else 0),
        { rs with
            opened := 0,
            css := openCss fg bg rs.esc rs.css,
            chunks := rs.chunks
              ++ [Chunk.tag (openHtml fg bg rs.esc none none)]
              ++ emitSlices sl
              ++ [Chunk.text rem]
              ++ [Chunk.tag "</span>"]
              ++ (if lc + sl.length < h ∧ w - l' ≠ 0 then nsPadChunks rs.esc (w - l') else [])
              ++ (if rem ≠ [] ∨ isLast = false then [Chunk.text ['\n']] else []) }) := by
  have hcond : c0 ≠ [] ∨ c0.length ≠ w := by
    by_cases h0 : c0 = []
    · right; rw [h0]; simp; omega
    · left; exact h0
  by_cases hpad : lc + sl.length < h
  · by_cases hpne : w - l' = 0
    · by_cases hnl : rem ≠ [] ∨ isLast = false
      · simp only [renderTail, Nat.zero_add, hop, if_pos hcond, hwl, openTag, closeTag,
          hpad, hpne, hnl, nsPadChunks]
        simp [hpad, hpne, hnl, hop, List.append_assoc, openCss_none_none]
      · simp only [renderTail, Nat.zero_add, hop, if_pos hcond, hwl, openTag, closeTag,
          hpad, hpne, hnl, nsPadChunks]
        simp [hpad, hpne, hnl, hop, List.append_assoc, openCss_none_none]
    · by_cases hnl : rem ≠ [] ∨ isLast = false
      · simp only [renderTail, Nat.zero_add, hop, if_pos hcond, hwl, openTag, closeTag,
          hpad, hpne, hnl, nsPadChunks]
        simp [hpad, hpne, hnl, hop, List.append_assoc, openCss_none_none]
      · simp only [renderTail, Nat.zero_add, hop, if_pos hcond, hwl, openTag, closeTag,
          hpad, hpne, hnl, nsPadChunks]
        simp [hpad, hpne, hnl, hop, List.append_assoc, openCss_none_none]
  · by_cases hnl : rem ≠ [] ∨ isLast = false
    · simp only [renderTail, Nat.zero_add, hop, if_pos hcond, hwl, openTag, closeTag,
        hpad, hnl, nsPadChunks]
      simp [hpad, hnl, hop, List.append_assoc, openCss_none_none]
    · simp only [renderTail, Nat.zero_add, hop, if_pos hcond, hwl, openTag, closeTag,
        hpad, hnl, nsPadChunks]
      simp [hpad, hnl, hop, List.append_assoc, openCss_none_none]

theorem renderLine_noesc (w h : Nat) (hw : 1 ≤ w) (isLast : Bool) (fg bg : Option PyVal)
    (line : List Char) (hesc : '\x1b' ∉ line) (lc : Nat) (rs : RS) (hop : rs.opened = 0)
    (sl : List (List Char)) (l' : Nat) (rem : List Char)
    (hwl : wrap_line line line.length w = (sl, l', rem)) :
    renderLine w h isLast fg bg line lc rs =
      (fg, bg,
        (if lc + sl.length < h then lc + sl.length else lc) +
          (if rem ≠ [] ∨ isLast = false then 1 else 0),
        { rs with
            opened := 0,
            css := openCss fg bg rs.esc rs.css,
            chunks := rs.chunks
              ++ [Chunk.tag (openHtml fg bg rs.esc none none)]
              ++ emitSlices sl
              ++ [Chunk.text rem]
              ++ [Chunk.tag "</span>"]
              ++ (if lc + sl.length < h ∧ w - l' ≠ 0 then nsPadChunks rs.esc (w - l') else [])
              ++ (if rem ≠ [] ∨ isLast = false then [Chunk.text ['\n']] else []) }) := by
  unfold renderLine
  rw [sgrRuns_no_esc hesc]
  simp only [renderRuns]
  rw [renderTail_spec w h hw isLast fg bg line 0 lc rs hop sl l' rem
    (by rw [Nat.zero_add]; exact hwl)]

theorem visText_nsPadChunks (esc : List Int) (n : Nat) :
    visText (nsPadChunks esc n) = List.replicate n ' ' := by
  simp [nsPadChunks, visText]

theorem rowsJoin_singleton (r : List Char) : rowsJoin [r] = r ++ ['\n'] := by
  simp [rowsJoin]

theorem renderLine_grid_step (w h : Nat) (hw : 1 ≤ w) (isLast : Bool)
    (fg bg : Option PyVal) (line : List Char) (hesc : '\x1b' ∉ line) (hnl : '\n' ∉ line)
    (lc : Nat) (rs : RS) (hop : rs.opened = 0) (rws : List (List Char))
    (hvis : visText rs.chunks = rowsJoin rws) (hlen : rws.length = lc)
    (hrows : ∀ r ∈ rws, r.length = w ∧ '\n' ∉ r)
    (hbound : lc + lineRows w isLast line.length ≤ h)
    (hspecial : isLast = true → line = [] → lc = h) :
    ∃ rws',
      (renderLine w h isLast fg bg line lc rs).1 = fg ∧
      (renderLine w h isLast fg bg line lc rs).2.1 = bg ∧
      (renderLine w h isLast fg bg line lc rs).2.2.1 = lc + lineRows w isLast line.length ∧
      (renderLine w h isLast fg bg line lc rs).2.2.2.opened = 0 ∧
      visText (renderLine w h isLast fg bg line lc rs).2.2.2.chunks = rowsJoin rws' ∧
      rws'.length = lc + lineRows w isLast line.length ∧
      (∀ r ∈ rws', r.length = w ∧ '\n' ∉ r) := by
  obtain ⟨sl, rem, hwl, hcount, hslice, hflat, hremle, hremlen, hremne⟩ :=
    wrap_line_run_spec hw line
  have hLN := renderLine_noesc w h hw isLast fg bg line hesc lc rs hop sl rem.length rem hwl
  by_cases hline : line = []
  · subst hline
    have hrem : rem = [] := by
      have h1 := hremlen
      simp at h1
      exact h1
    have hsl : sl = [] := by
      have h1 : sl.length = 0 := by
        rw [hcount]
        simp [lineSliceCount]
      exact List.length_eq_zero.mp h1
    subst hrem
    subst hsl
    cases isLast with
    | true =>
      have hlc : lc = h := hspecial rfl rfl
      refine ⟨rws, ?_, ?_, ?_, ?_, ?_, ?_, hrows⟩
      · rw [hLN]
      · rw [hLN]
      · rw [hLN]
        simp [lineRows, lineSliceCount, hlc]
      · rw [hLN]
      · rw [hLN]
        simp [lineRows, lineSliceCount, hlc, emitSlices, visText, visText_append, hvis]
      · simp [hlen, lineRows, lineSliceCount]
    | false =>
      have hpadcond : lc + 0 < h := by
        simp [lineRows, lineSliceCount] at hbound
        omega
      have hw0 : ¬(w = 0) := by omega
      refine ⟨rws ++ [List.replicate w ' '], ?_, ?_, ?_, ?_, ?_, ?_, ?_⟩
      · rw [hLN]
      · rw [hLN]
      · rw [hLN]
        simp [lineRows, lineSliceCount, hpadcond]
      · rw [hLN]
      · rw [hLN]
        simp only [List.length_nil, Nat.add_zero] at hpadcond ⊢
        simp [hpadcond, hw0, emitSlices, visText, visText_append, hvis,
          visText_nsPadChunks, rowsJoin_append, rowsJoin_singleton, List.append_assoc]
      · simp [hlen, lineRows, lineSliceCount]
      · intro r hr
        rcases List.mem_append.mp hr with h1 | h1
        · exact hrows r h1
        · have : r = List.replicate w ' ' := by simpa using h1
          subst this
          constructor
          · simp
          · intro hm
            have := List.eq_of_mem_replicate hm
            simp at this
  · -- line ≠ []
    have hremne' : rem ≠ [] := hremne hline
    have hlinelen : line.length ≠ 0 := fun hE => hline (List.length_eq_zero.mp hE)
    have hlrows : lineRows w isLast line.length = sl.length + 1 := by
      simp [lineRows, hcount, hlinelen]
    have hpadcond : lc + sl.length < h := by omega
    have hnlcond : rem ≠ [] ∨ isLast = false := Or.inl hremne'
    have hslnl : ∀ s ∈ sl, '\n' ∉ s := by
      intro s hs hm
      apply hnl
      rw [← hflat]
      exact List.mem_append_left _ (List.mem_flatten.mpr ⟨s, hs, hm⟩)
    have hremnl : '\n' ∉ rem := by
      intro hm
      apply hnl
      rw [← hflat]
      exact List.mem_append_right _ hm
    refine ⟨rws ++ sl ++ [rem ++ List.replicate (w - rem.length) ' '],
      ?_, ?_, ?_, ?_, ?_, ?_, ?_⟩
    · rw [hLN]
    · rw [hLN]
    · rw [hLN]
      simp [hpadcond, hnlcond, hlrows]
      omega
    · rw [hLN]
    · rw [hLN]
      have hvispad : visText
          (if lc + sl.length < h ∧ w - rem.length ≠ 0 then
            nsPadChunks rs.esc (w - rem.length) else []) =
          List.replicate (w - rem.length) ' ' := by
        by_cases hz : w - rem.length = 0
        · simp [hz, visText]
        · simp [hpadcond, hz, visText_nsPadChunks]
      simp only [visText_append, hvis, visText_emitSlices, hvispad, hnlcond, if_pos,
        rowsJoin_append, rowsJoin_singleton]
      simp [visText, List.append_assoc, hnlcond]
    · simp [hlen, hlrows]
    · intro r hr
      rcases List.mem_append.mp hr with h1 | h1
      · rcases List.mem_append.mp h1 with h2 | h2
        · exact hrows r h2
        · refine ⟨hslice r h2, hslnl r h2⟩
      · have : r = rem ++ List.replicate (w - rem.length) ' ' := by simpa using h1
        subst this
        constructor
        · rw [List.length_append, List.length_replicate]
          omega
        · intro hm
          rcases List.mem_append.mp hm with h2 | h2
          · exact hremnl h2
          · have := List.eq_of_mem_replicate h2
            simp at this

theorem renderLines_single (w h : Nat) (l : List Char) (fg bg : Option PyVal)
    (lc : Nat) (rs : RS) :
    renderLines w h [l] fg bg lc rs =
      ((renderLine w h true fg bg l lc rs).2.2.1,
        (renderLine w h true fg bg l lc rs).2.2.2) := rfl

theorem renderLines_cons_cons (w h : Nat) (l l2 : List Char) (ls : List (List Char))
    (fg bg : Option PyVal) (lc : Nat) (rs : RS) :
    renderLines w h (l :: l2 :: ls) fg bg lc rs =
      renderLines w h (l2 :: ls)
        (renderLine w h false fg bg l lc rs).1
        (renderLine w h false fg bg l lc rs).2.1
        (renderLine w h false fg bg l lc rs).2.2.1
        (renderLine w h false fg bg l lc rs).2.2.2 := rfl

theorem renderLines_grid (w h : Nat) (hw : 1 ≤ w) :
    ∀ (ls : List (List Char)) (fg bg : Option PyVal) (lc : Nat) (rs : RS)
      (rws : List (List Char)),
      ls ≠ [] →
      (∀ l ∈ ls, '\x1b' ∉ l ∧ '\n' ∉ l) →
      rs.opened = 0 →
      visText rs.chunks = rowsJoin rws →
      rws.length = lc →
      (∀ r ∈ rws, r.length = w ∧ '\n' ∉ r) →
      lc + contentRows w ls ≤ h →
      (ls.getLast? = some [] → lc + contentRows w ls = h) →
      ∃ rws',
        (renderLines w h ls fg bg lc rs).1 = lc + contentRows w ls ∧
        (renderLines w h ls fg bg lc rs).2.opened = 0 ∧
        visText (renderLines w h ls fg bg lc rs).2.chunks = rowsJoin rws' ∧
        rws'.length = lc + contentRows w ls ∧
        (∀ r ∈ rws', r.length = w ∧ '\n' ∉ r) := by
  intro ls
  induction ls with
  | nil => intro fg bg lc rs rws hne; exact absurd rfl hne
  | cons l tail ih =>
    intro fg bg lc rs rws hne hll hop hvis hlen hrows hbound hlast
    cases tail with
    | nil =>
      have hstep := renderLine_grid_step w h hw true fg bg l
        (hll l (List.mem_cons_self l [])).1 (hll l (List.mem_cons_self l [])).2
        lc rs hop rws hvis hlen hrows
        (by simpa [contentRows] using hbound)
        (by
          intro _ hE
          have := hlast (by simp [hE])
          simp [contentRows, hE, lineRows, lineSliceCount] at this
          omega)
      obtain ⟨rws', h1, h2, h3, h4, h5, h6, h7⟩ := hstep
      refine ⟨rws', ?_, ?_, ?_, ?_, h7⟩
      · rw [renderLines_single]
        simpa [contentRows] using h3
      · rw [renderLines_single]
        exact h4
      · rw [renderLines_single]
        exact h5
      · simpa [contentRows] using h6
    | cons l2 ls2 =>
      have hl := hll l (List.mem_cons_self l _)
      have hCR : contentRows w (l :: l2 :: ls2) =
          lineRows w false l.length + contentRows w (l2 :: ls2) := rfl
      have hstep := renderLine_grid_step w h hw false fg bg l hl.1 hl.2
        lc rs hop rws hvis hlen hrows
        (by rw [hCR] at hbound; omega)
        (by intro hE; exact absurd hE (by decide))
      obtain ⟨rws1, h1, h2, h3, h4, h5, h6, h7⟩ := hstep
      have heq : renderLine w h false fg bg l lc rs =
          (fg, bg, lc + lineRows w false l.length,
            (renderLine w h false fg bg l lc rs).2.2.2) := by
        refine Prod.ext h1 (Prod.ext h2 (Prod.ext h3 rfl))
      have hrec := ih fg bg (lc + lineRows w false l.length)
        (renderLine w h false fg bg l lc rs).2.2.2 rws1
        (by simp)
        (fun x hx => hll x (List.mem_cons_of_mem l hx))
        h4 h5 h6 h7
        (by rw [hCR] at hbound; omega)
        (by
          intro hE
          have := hlast (by rw [List.getLast?_cons_cons]; exact hE)
          rw [hCR] at this
          omega)
      obtain ⟨rws', g1, g2, g3, g4, g5⟩ := hrec
      refine ⟨rws', ?_, ?_, ?_, ?_, g5⟩
      · rw [renderLines_cons_cons, heq]
        simp only []
        rw [g1, hCR]
        omega
      · rw [renderLines_cons_cons, heq]
        exact g2
      · rw [renderLines_cons_cons, heq]
        exact g3
      · rw [g4, hCR]
        omega

theorem gridOK_of_rows (w h : Nat) (chunks : List Chunk) (rows : List (List Char))
    (hvt : visText chunks = rowsJoin rows)
    (hlen : rows.length = h)
    (hrows : ∀ r ∈ rows, r.length = w ∧ '\n' ∉ r) :
    gridOK w h chunks := by
  have hsplit : rowsOf chunks = rows ++ [[]] := by
    rw [rowsOf, hvt, splitOnChar_rowsJoin rows (fun r hr => (hrows r hr).2)]
  refine ⟨?_, ?_, ?_⟩
  · rw [hsplit]; simp [hlen]
  · rw [hsplit, List.getLast?_concat]
  · rw [hsplit, List.dropLast_concat]
    intro r hr
    exact (hrows r hr).1

theorem render_grid (s : List Char) (w h : Nat) (hw : 1 ≤ w) (hh : 1 ≤ h)
    (hesc : '\x1b' ∉ s)
    (hbound : contentRows w (splitOnChar '\n' s) ≤ h)
    (hlast : (splitOnChar '\n' s).getLast? = some [] →
      contentRows w (splitOnChar '\n' s) = h) :
    gridOK w h ((render s w h initRS).chunks) := by
  have hrender : render s w h initRS =
      (let r := renderLines w h (splitOnChar '\n' s) none none 0
        (RS.mk 0 [Chunk.tag "<pre>"] [] []);
       let rs :=
         if r.1 < h then
           closeTag "span" true
             { (openTag none none none (some "ns") r.2) with
                 chunks := (openTag none none none (some "ns") r.2).chunks
                   ++ blankRows w (h - r.1) }
         else r.2;
       { rs with chunks := rs.chunks ++ [Chunk.tag "</pre>"] }) := rfl
  have hfold := renderLines_grid w h hw (splitOnChar '\n' s) none none 0
    (RS.mk 0 [Chunk.tag "<pre>"] [] []) []
    (splitOnChar_ne_nil _ _)
    (fun l hl => ⟨fun hm => hesc (splitOnChar_subset '\n' s l hl _ hm),
      splitOnChar_sep_not_mem '\n' s l hl⟩)
    rfl (by simp [visText, rowsJoin]) rfl (by simp)
    (by simpa using hbound) (by intro hE; simpa using hlast hE)
  obtain ⟨rws', hlc, hop', hvis', hlen', hrows'⟩ := hfold
  rw [Nat.zero_add] at hlc hlen'
  rw [hrender]
  by_cases hR : (renderLines w h (splitOnChar '\n' s) none none 0
      (RS.mk 0 [Chunk.tag "<pre>"] [] [])).1 < h
  · simp only [if_pos hR]
    apply gridOK_of_rows w h _
      (rws' ++ List.replicate
        (h - contentRows w (splitOnChar '\n' s)) (List.replicate w ' '))
    · simp only [closeTag, openTag, hop']
      rw [if_pos (by norm_num)]
      simp only [visText_append, hvis', visText_blankRows, visText, rowsJoin_append, hlc]
      simp [visText, visText_append, visText_blankRows, hvis', rowsJoin_append, hlc]
    · rw [List.length_append, hlen', List.length_replicate]
      rw [hlc] at hR
      omega
    · intro r hr
      rcases List.mem_append.mp hr with h1 | h1
      · exact hrows' r h1
      · have : r = List.replicate w ' ' := List.eq_of_mem_replicate h1
        subst this
        refine ⟨List.length_replicate _ _, ?_⟩
        intro hm
        have := List.eq_of_mem_replicate hm
        simp at this
  · simp only [if_neg hR]
    apply gridOK_of_rows w h _ rws'
    · simp only [visText_append, hvis', visText]
      simp
    · rw [hlen', hlc] at *
      omega
    · exact hrows'

/-! ### Claim C6: wrap counts and content preservation -/

/-- C6: a literal run of length `k > w` wrapped by `Renderer._wrap_line`
under pane width `w ≥ 1` from a fresh zero column count yields `⌈k/w⌉`
physical slices (the emitted slices plus the returned remainder), each of
length at most `w`, and the concatenation of the emitted slices with the
remainder equals the original run. -/
theorem C6_wrap_correct (line : List Char) (w : Nat) (hw : 1 ≤ w)
    (hlen : w < line.length) :
    (wrap_line line line.length w).1.length + 1 = (line.length + w - 1) / w ∧
    (∀ s ∈ (wrap_line line line.length w).1, s.length ≤ w) ∧
    (wrap_line line line.length w).2.1 ≤ w ∧
    (wrap_line line line.length w).2.1 = (wrap_line line line.length w).2.2.length ∧
    (wrap_line line line.length w).1.flatten ++ (wrap_line line line.length w).2.2 = line := by
  obtain ⟨sl, rem, hwl, hcount, hslice, hflat, hremle, hremlen, hremne⟩ :=
    wrap_line_run_spec hw line
  rw [hwl]
  refine ⟨?_, ?_, ?_, ?_, ?_⟩
  · show sl.length + 1 = _
    rw [hcount]
    unfold lineSliceCount
    rw [if_neg (by omega)]
    have h1 : line.length + w - 1 = (line.length - 1) + w := by omega
    rw [h1, Nat.add_div_right _ hw]
  · intro s hs
    exact le_of_eq (hslice s hs)
  · exact hremle
  · rfl
  · exact hflat

theorem C6_wrap_correct_witness :
    (wrap_line ['a', 'b', 'c', 'd', 'e', 'f', 'g'] 7 3).1.length + 1 = (7 + 3 - 1) / 3 ∧
    (∀ s ∈ (wrap_line ['a', 'b', 'c', 'd', 'e', 'f', 'g'] 7 3).1, s.length ≤ 3) ∧
    (wrap_line ['a', 'b', 'c', 'd', 'e', 'f', 'g'] 7 3).2.1 ≤ 3 ∧
    (wrap_line ['a', 'b', 'c', 'd', 'e', 'f', 'g'] 7 3).2.1 =
      (wrap_line ['a', 'b', 'c', 'd', 'e', 'f', 'g'] 7 3).2.2.length ∧
    (wrap_line ['a', 'b', 'c', 'd', 'e', 'f', 'g'] 7 3).1.flatten ++
      (wrap_line ['a', 'b', 'c', 'd', 'e', 'f', 'g'] 7 3).2.2 =
      ['a', 'b', 'c', 'd', 'e', 'f', 'g'] :=
  C6_wrap_correct ['a', 'b', 'c', 'd', 'e', 'f', 'g'] 3 (by decide) (by decide)

/-! ### Claim C10: termination of the `_wrap_line` loop -/

/-- C10: for every input line and every running length the `_wrap_line`
loop terminates whenever the pane width is at least 1 (fuel equal to the
running length always suffices), while for width 0 and a non-empty line
with positive running length it never terminates (every finite fuel is
exhausted). -/
theorem C10_wrap_line_termination :
    (∀ (ml : Nat), 1 ≤ ml → ∀ (line : List Char) (length fuel : Nat), length ≤ fuel →
      (wrapLineF fuel line length ml).isSome) ∧
    (∀ (line : List Char) (length : Nat), line ≠ [] → 0 < length →
      ∀ fuel, wrapLineF fuel line length 0 = none) :=
  ⟨fun ml hml line length fuel hle => wrapLineF_isSome hml fuel line length hle,
   fun line length hne hpos fuel => wrapLineF_zero_none fuel line length hne hpos⟩

theorem C10_wrap_line_termination_witness :
    (wrapLineF 7 ['a', 'b', 'c', 'd', 'e', 'f', 'g'] 7 3).isSome ∧
    wrapLineF 5 ['a'] 1 0 = none :=
  ⟨C10_wrap_line_termination.1 3 (by decide) ['a', 'b', 'c', 'd', 'e', 'f', 'g'] 7 7 (by decide),
   C10_wrap_line_termination.2 ['a'] 1 (by decide) (by decide) 5⟩

/-! ### Claim C7: glyph substitution in `_escape_text` -/

theorem escChar_high {c : Char} (h : 0x80 ≤ c.toNat) : escChar c = [c] := by
  unfold escChar
  rw [if_neg, if_neg, if_neg, if_neg, if_neg]
  all_goals intro hE; subst hE; simp at h

/-- C7 (counterexample to the claim as stated): the substitution pattern of
`_escape_text` is `[\u0080-￿]`, so the character U+10000 — whose
codepoint is at least 0x80 — is not replaced by a glyph placeholder but
passed through unchanged. -/
theorem C7_claim_counterexample :
    0x80 ≤ (Char.ofNat 0x10000).toNat ∧
    escape_text [Char.ofNat 0x10000] = [Char.ofNat 0x10000] := by
  constructor
  · decide
  · rfl

/-- C7 (amended): every character with codepoint in the matched range
0x80–0xFFFF is replaced, wherever it occurs, by the fixed-width glyph
placeholder: a span holding a single space whose `data-glyph` attribute
carries the character's lowercase hexadecimal codepoint. -/
theorem C7_escape_glyph (c : Char) (h1 : 0x80 ≤ c.toNat) (h2 : c.toNat ≤ 0xffff)
    (s t : List Char) :
    escape_text (s ++ c :: t) = escape_text s ++ glyphSpan c ++ escape_text t ∧
    glyphSpan c = ("<span class=\"u\" data-glyph=\"&#x"
      ++ String.mk (Nat.toDigits 16 c.toNat) ++ ";\"> </span>").data := by
  refine ⟨?_, rfl⟩
  unfold escape_text htmlEscape glyphSub
  rw [List.flatMap_append, List.flatMap_cons, escChar_high h1]
  rw [List.flatMap_append, List.flatMap_append, List.flatMap_cons]
  simp only [h1, h2, and_self, if_pos, List.flatMap_nil, List.append_nil, List.append_assoc]

theorem C7_escape_glyph_witness :
    escape_text (['a'] ++ (Char.ofNat 0xe9) :: ['b']) =
      escape_text ['a'] ++ glyphSpan (Char.ofNat 0xe9) ++ escape_text ['b'] ∧
    glyphSpan (Char.ofNat 0xe9) = ("<span class=\"u\" data-glyph=\"&#x"
      ++ String.mk (Nat.toDigits 16 (Char.ofNat 0xe9).toNat) ++ ";\"> </span>").data :=
  C7_escape_glyph (Char.ofNat 0xe9) (by decide) (by decide) ['a'] ['b']

/-! ### Claim C8: out-of-range pane selection -/

/-- C8: a pane selector index at or beyond the number of leaf panes of the
selected window makes pane selection fail (the spec's `PaneNotFound`
condition, Python's `IndexError` on `panes[pane]`), never clamping to an
existing pane. -/
theorem C8_pane_out_of_range (root : Pane) (idx : Nat)
    (h : (pane_list root).length ≤ idx) :
    selectPane root idx = none := by
  unfold selectPane
  exact List.getElem?_eq_none h

theorem C8_pane_out_of_range_witness :
    selectPane (Pane.node 0 0 0 (80, 24)
      [Pane.node 1 0 0 (40, 12) [] false, Pane.node 2 40 0 (40, 12) [] false,
       Pane.node 3 0 12 (40, 12) [] false, Pane.node 4 40 12 (40, 12) [] false] false) 9 =
      none :=
  C8_pane_out_of_range _ 9 (by decide)

/-! ### Claims C4 and C5: the bright-bold rule of `Renderer.open` -/

theorem append_ne_sb_of_head (p x : String) (hc : p.data = ['f'] ∨ p.data = ['b']) :
    p ++ x ≠ "sb" := by
  intro hE
  have h1 : (p ++ x).data = "sb".data := congrArg String.data hE
  rw [String.data_append] at h1
  rcases hc with h | h <;> rw [h] at h1 <;> simp at h1

theorem append_ne_empty_of_head (p x : String) (hc : p.data = ['f'] ∨ p.data = ['b']) :
    p ++ x ≠ "" := by
  intro hE
  have h1 : (p ++ x).data = "".data := congrArg String.data hE
  rw [String.data_append] at h1
  rcases hc with h | h <;> rw [h] at h1 <;> simp at h1

theorem cssKey_f_ne_sb (cc : Option PyVal) (esc : List Int) :
    cssKey "f" cc esc ≠ "sb" := by
  cases cc with
  | none => show ("" : String) ≠ "sb"; decide
  | some v =>
    cases v with
    | int n =>
      simp only [cssKey]
      exact append_ne_sb_of_head "f" _ (Or.inl rfl)
    | rgb r g b =>
      simp only [cssKey]
      rw [String.append_assoc, String.append_assoc, String.append_assoc]
      exact append_ne_sb_of_head "f" _ (Or.inl rfl)

theorem cssKey_b_ne_sb (cc : Option PyVal) (esc : List Int) :
    cssKey "b" cc esc ≠ "sb" := by
  cases cc with
  | none => show ("" : String) ≠ "sb"; decide
  | some v =>
    cases v with
    | int n =>
      simp only [cssKey]
      have hnf : ¬("b" = "f" ∧ (1 : Int) ∈ esc ∧ n < 8) := by
        intro hE
        exact absurd hE.1 (by decide)
      rw [if_neg hnf]
      exact append_ne_sb_of_head "b" _ (Or.inr rfl)
    | rgb r g b =>
      simp only [cssKey]
      rw [String.append_assoc, String.append_assoc, String.append_assoc]
      exact append_ne_sb_of_head "b" _ (Or.inr rfl)

theorem openClasses_none_expand (fgE bgE : Option PyVal) (esc : List Int) :
    openClasses fgE bgE esc none =
      (if boldSuppress fgE esc ∧
          "sb" ∈ ((if cssKey "f" fgE esc ≠ "" then [cssKey "f" fgE esc] else []) ++
            (if cssKey "b" bgE esc ≠ "" then [cssKey "b" bgE esc] else []) ++
            style_classes esc) then
        ((if cssKey "f" fgE esc ≠ "" then [cssKey "f" fgE esc] else []) ++
          (if cssKey "b" bgE esc ≠ "" then [cssKey "b" bgE esc] else []) ++
          style_classes esc).erase "sb"
      else
        ((if cssKey "f" fgE esc ≠ "" then [cssKey "f" fgE esc] else []) ++
          (if cssKey "b" bgE esc ≠ "" then [cssKey "b" bgE esc] else []) ++
          style_classes esc)) := by
  simp only [openClasses, List.nil_append, List.append_assoc]

theorem sb_not_mem_fpart (fgE : Option PyVal) (esc : List Int) :
    "sb" ∉ (if cssKey "f" fgE esc ≠ "" then [cssKey "f" fgE esc] else []) := by
  by_cases hc : cssKey "f" fgE esc ≠ ""
  · rw [if_pos hc]
    intro h
    have h2 : "sb" = cssKey "f" fgE esc := by simpa using h
    exact cssKey_f_ne_sb fgE esc h2.symm
  · rw [if_neg hc]
    simp

theorem sb_not_mem_bpart (bgE : Option PyVal) (esc : List Int) :
    "sb" ∉ (if cssKey "b" bgE esc ≠ "" then [cssKey "b" bgE esc] else []) := by
  by_cases hc : cssKey "b" bgE esc ≠ ""
  · rw [if_pos hc]
    intro h
    have h2 : "sb" = cssKey "b" bgE esc := by simpa using h
    exact cssKey_b_ne_sb bgE esc h2.symm
  · rw [if_neg hc]
    simp

theorem sb_not_mem_appended (fgE bgE : Option PyVal) (esc : List Int) :
    "sb" ∉ ((if cssKey "f" fgE esc ≠ "" then [cssKey "f" fgE esc] else []) ++
      (if cssKey "b" bgE esc ≠ "" then [cssKey "b" bgE esc] else [])) := by
  intro hm
  rcases List.mem_append.mp hm with h | h
  · exact sb_not_mem_fpart fgE esc h
  · exact sb_not_mem_bpart bgE esc h

theorem sb_not_mem_rest (esc : List Int) :
    "sb" ∉ ((if (3 : Int) ∈ esc ∧ (23 : Int) ∉ esc then ["si"] else []) ++
      (if (4 : Int) ∈ esc ∧ (24 : Int) ∉ esc then ["su"] else [])) := by
  split_ifs <;> decide

theorem sb_not_mem_openClasses (fgE bgE : Option PyVal) (esc : List Int)
    (hsup : boldSuppress fgE esc = true) :
    "sb" ∉ openClasses fgE bgE esc none := by
  rw [openClasses_none_expand]
  by_cases h22 : (1 : Int) ∈ esc ∧ (22 : Int) ∉ esc
  · have hsty : style_classes esc =
        "sb" :: ((if (3 : Int) ∈ esc ∧ (23 : Int) ∉ esc then ["si"] else []) ++
          (if (4 : Int) ∈ esc ∧ (24 : Int) ∉ esc then ["su"] else [])) := by
      unfold style_classes
      rw [if_pos h22]
      rfl
    have hmem : "sb" ∈ ((if cssKey "f" fgE esc ≠ "" then [cssKey "f" fgE esc] else []) ++
        (if cssKey "b" bgE esc ≠ "" then [cssKey "b" bgE esc] else []) ++
        style_classes esc) := by
      rw [hsty]
      exact List.mem_append_right _ (List.mem_cons_self _ _)
    rw [if_pos ⟨hsup, hmem⟩, hsty,
      List.erase_append_right _ (sb_not_mem_appended fgE bgE esc),
      List.erase_cons_head]
    intro hm
    rcases List.mem_append.mp hm with h | h
    · exact sb_not_mem_appended fgE bgE esc h
    · exact sb_not_mem_rest esc h
  · have hsty : "sb" ∉ style_classes esc := by
      unfold style_classes
      rw [if_neg h22, List.nil_append]
      exact sb_not_mem_rest esc
    have hnm : "sb" ∉ ((if cssKey "f" fgE esc ≠ "" then [cssKey "f" fgE esc] else []) ++
        (if cssKey "b" bgE esc ≠ "" then [cssKey "b" bgE esc] else []) ++
        style_classes esc) := by
      intro hm
      rcases List.mem_append.mp hm with h | h
      · exact sb_not_mem_appended fgE bgE esc h
      · exact hsty h
    rw [if_neg (fun hE => hnm hE.2)]
    exact hnm

theorem sb_mem_openClasses_of_not_suppressed (fgE bgE : Option PyVal) (esc : List Int)
    (h1 : (1 : Int) ∈ esc) (h22 : (22 : Int) ∉ esc)
    (hsup : boldSuppress fgE esc = false) :
    "sb" ∈ openClasses fgE bgE esc none := by
  rw [openClasses_none_expand]
  rw [if_neg]
  · apply List.mem_append_right
    unfold style_classes
    rw [if_pos ⟨h1, h22⟩]
    exact List.mem_append_left _ (List.mem_append_left _ (List.mem_cons_self _ _))
  · intro hE
    rw [hsup] at hE
    simp at hE

theorem fkey_mem_openClasses (fgE bgE : Option PyVal) (esc : List Int)
    (hne : cssKey "f" fgE esc ≠ "") :
    cssKey "f" fgE esc ∈ openClasses fgE bgE esc none := by
  rw [openClasses_none_expand]
  rw [if_pos hne]
  by_cases hcond : boldSuppress fgE esc ∧
      "sb" ∈ ([cssKey "f" fgE esc] ++
        (if cssKey "b" bgE esc ≠ "" then [cssKey "b" bgE esc] else []) ++
        style_classes esc)
  · rw [if_pos hcond]
    exact (List.mem_erase_of_ne (cssKey_f_ne_sb fgE esc)).mpr
      (List.mem_append_left _ (List.mem_append_left _ (List.mem_cons_self _ _)))
  · rw [if_neg hcond]
    exact List.mem_append_left _ (List.mem_append_left _ (List.mem_cons_self _ _))

/-- C4 (counterexample to the claim as stated): with reverse video active
the bright-bold rule of `Renderer.open` applies to the swapped, not the
unswapped, foreground.  With unswapped foreground 1 (basic red), background
33 and active bold+reverse, the class list keeps a separate `sb` class and
contains no promoted `f9` key, contradicting the claim for the unswapped
foreground. -/
theorem C4_claim_counterexample :
    openClassList (some (.int 1)) (some (.int 33)) [(1 : Int), 7] none =
      ["f33", "b1", "sb"] ∧
    "sb" ∈ openClassList (some (.int 1)) (some (.int 33)) [(1 : Int), 7] none ∧
    "f9" ∉ openClassList (some (.int 1)) (some (.int 33)) [(1 : Int), 7] none := by
  refine ⟨?_, ?_, ?_⟩ <;> decide

/-- C4 (amended): for every styled run where bold (SGR 1) is active and the
effective (post-reverse-swap), pre-shift foreground is a basic int code in
0–7, the emitted foreground class key is the code promoted by `+8` (its
bright variant) and no separate `sb` class is emitted for that run. -/
theorem C4_bright_bold (n : Int) (bg : Option PyVal) (esc : List Int)
    (hn0 : 0 ≤ n) (hn7 : n ≤ 7) (hb : (1 : Int) ∈ esc) :
    cssKey "f" (some (.int n)) esc = "f" ++ toString (n + 8) ∧
    ("f" ++ toString (n + 8)) ∈ openClasses (some (.int n)) bg esc none ∧
    "sb" ∉ openClasses (some (.int n)) bg esc none := by
  have hkey : cssKey "f" (some (.int n)) esc = "f" ++ toString (n + 8) := by
    have h8 : n < 8 := by omega
    simp [cssKey, hb, h8]
  have hsup : boldSuppress (some (.int n)) esc = true := by
    simp only [boldSuppress, decide_eq_true_eq]
    refine ⟨Or.inr (Or.inl ?_), hb⟩
    simp only [pyLt, decide_eq_true_eq]
    omega
  refine ⟨hkey, ?_, sb_not_mem_openClasses _ bg esc hsup⟩
  rw [← hkey]
  apply fkey_mem_openClasses
  rw [hkey]
  exact append_ne_empty_of_head "f" _ (Or.inl rfl)

theorem C4_bright_bold_witness :
    cssKey "f" (some (.int 1)) [(1 : Int)] = "f" ++ toString ((1 : Int) + 8) ∧
    ("f" ++ toString ((1 : Int) + 8)) ∈ openClasses (some (.int 1)) none [(1 : Int)] none ∧
    "sb" ∉ openClasses (some (.int 1)) none [(1 : Int)] none :=
  C4_bright_bold 1 none [(1 : Int)] (by decide) (by decide) (by decide)

/-- C5 (counterexample to the claim as stated): a styled run with bold
active and an absent foreground gets *no* separate `sb` class — the
suppression test `not fg or fg < 16 or fg == 39` fires for an absent
foreground, contradicting the claim that `sb` is kept in that case. -/
theorem C5_claim_counterexample :
    openClasses none none [(1 : Int)] none = [] ∧
    "sb" ∉ openClasses none none [(1 : Int)] none := by
  refine ⟨?_, ?_⟩ <;> decide

/-- C5 (amended): for a styled run with bold active (SGR 1 set and SGR 22
not set), the class list contains the separate `sb` class exactly when the
suppression test of `Renderer.open` fails, i.e. exactly when the effective
foreground is neither falsy (absent or 0), nor an int below 16, nor the
default sentinel 39 — so an extended int code (at least 16 and distinct
from 39) or an RGB triple keeps `sb`, while an absent foreground, a basic
code or the 39 sentinel loses it. -/
theorem C5_bold_attribute_class (fg bg : Option PyVal) (esc : List Int)
    (h1 : (1 : Int) ∈ esc) (h22 : (22 : Int) ∉ esc) :
    ("sb" ∈ openClasses fg bg esc none ↔ boldSuppress fg esc = false) := by
  cases hsup : boldSuppress fg esc with
  | false =>
    constructor
    · intro _
      rfl
    · intro _
      exact sb_mem_openClasses_of_not_suppressed fg bg esc h1 h22 hsup
  | true =>
    constructor
    · intro hm
      exact absurd hm (sb_not_mem_openClasses fg bg esc hsup)
    · intro hE
      simp at hE

theorem C5_bold_attribute_class_witness :
    ("sb" ∈ openClasses (some (.int 33)) none [(1 : Int)] none ↔
      boldSuppress (some (.int 33)) [(1 : Int)] = false) :=
  C5_bold_attribute_class (some (.int 33)) none [(1 : Int)] (by decide) (by decide)

/-! ### Claim C9: the open-tag counter -/

theorem openHtml_take6 (fg bg : Option PyVal) (esc : List Int) (seq cls : Option String) :
    (openHtml fg bg esc seq cls).data.take 6 = ("<span ").data := by
  simp only [openHtml]
  rw [String.data_append, String.data_append, List.append_assoc]
  have h : ("<span ").data.length = 6 := rfl
  rw [← h, List.take_left]

theorem openHtml_ne_closing (fg bg : Option PyVal) (esc : List Int)
    (seq cls : Option String) : openHtml fg bg esc seq cls ≠ "</span>" := by
  intro hE
  have h1 := congrArg (fun s => s.data.take 6) hE
  simp only at h1
  rw [openHtml_take6] at h1
  exact absurd h1 (by decide)

theorem openSpanCount_append (a b : List Chunk) :
    openSpanCount (a ++ b) = openSpanCount a + openSpanCount b :=
  List.countP_append _ a b

theorem closeSpanCount_append (a b : List Chunk) :
    closeSpanCount (a ++ b) = closeSpanCount a + closeSpanCount b :=
  List.countP_append _ a b

theorem openSpanCount_openChunk (fg bg : Option PyVal) (esc : List Int)
    (seq cls : Option String) :
    openSpanCount [Chunk.tag (openHtml fg bg esc seq cls)] = 1 := by
  unfold openSpanCount
  rw [List.countP_cons, List.countP_nil]
  simp [openHtml_take6]

theorem closeSpanCount_openChunk (fg bg : Option PyVal) (esc : List Int)
    (seq cls : Option String) :
    closeSpanCount [Chunk.tag (openHtml fg bg esc seq cls)] = 0 := by
  unfold closeSpanCount
  rw [List.countP_cons, List.countP_nil]
  simp [openHtml_ne_closing fg bg esc seq cls]

theorem closeSpanCount_replicate (n : Nat) (tg : String) (h : ("</" ++ tg ++ ">") = "</span>") :
    closeSpanCount (List.replicate n (Chunk.tag ("</" ++ tg ++ ">"))) = n := by
  unfold closeSpanCount
  rw [List.countP_replicate]
  rw [h]
  simp

theorem openSpanCount_replicate (n : Nat) (tg : String) (h : ("</" ++ tg ++ ">") = "</span>") :
    openSpanCount (List.replicate n (Chunk.tag ("</" ++ tg ++ ">"))) = 0 := by
  unfold openSpanCount
  rw [List.countP_replicate]
  rw [h]
  simp

theorem runOps_inv (ops : List ROp) :
    ∀ (rs : RS),
      0 ≤ rs.opened →
      closeSpanCount rs.chunks + rs.opened.toNat ≤ openSpanCount rs.chunks →
      0 ≤ (runOps ops rs).opened ∧
      closeSpanCount (runOps ops rs).chunks + (runOps ops rs).opened.toNat ≤
        openSpanCount (runOps ops rs).chunks := by
  induction ops with
  | nil => intro rs h1 h2; exact ⟨h1, h2⟩
  | cons op rest ih =>
    intro rs h1 h2
    cases op with
    | opn fg bg seq cls =>
      show 0 ≤ (runOps rest (openTag fg bg seq cls rs)).opened ∧ _
      apply ih
      · simp only [openTag]
        omega
      · simp only [openTag, openSpanCount_append, closeSpanCount_append,
          openSpanCount_openChunk, closeSpanCount_openChunk]
        have h3 : (rs.opened + 1).toNat = rs.opened.toNat + 1 := by omega
        omega
    | cls b =>
      show 0 ≤ (runOps rest (closeTag "span" b rs)).opened ∧ _
      apply ih
      · unfold closeTag
        split
        · split <;> simp <;> omega
        · exact h1
      · unfold closeTag
        split
        · split
          · simp only [openSpanCount_append, closeSpanCount_append,
              openSpanCount_replicate _ "span" rfl, closeSpanCount_replicate _ "span" rfl]
            omega
          · have ho : openSpanCount [Chunk.tag ("</" ++ "span" ++ ">")] = 0 := by decide
            have hc : closeSpanCount [Chunk.tag ("</" ++ "span" ++ ">")] = 1 := by decide
            simp only [openSpanCount_append, closeSpanCount_append, ho, hc]
            omega
        · exact h2

/-- C9: the renderer's open-tag counter is never negative and the number of
closing span tags appended to the chunk buffer never exceeds the number of
opening span tags (for any sequence of `open`/`close` calls from a fresh
state); `close` is a no-op when no tag is open; `close` with `closeall`
appends exactly `opened` closing tags and resets the counter to zero. -/
theorem C9_tag_counter :
    (∀ ops : List ROp,
      0 ≤ (runOps ops initRS).opened ∧
      closeSpanCount (runOps ops initRS).chunks ≤ openSpanCount (runOps ops initRS).chunks) ∧
    (∀ rs : RS, rs.opened = 0 → ∀ tg b, closeTag tg b rs = rs) ∧
    (∀ rs : RS, 0 ≤ rs.opened → ∀ tg, closeTag tg true rs =
      { rs with
          opened := 0,
          chunks := rs.chunks ++
            List.replicate rs.opened.toNat (Chunk.tag ("</" ++ tg ++ ">")) }) := by
  refine ⟨?_, ?_, ?_⟩
  · intro ops
    have h := runOps_inv ops initRS (by decide) (by decide)
    exact ⟨h.1, by omega⟩
  · intro rs h tg b
    unfold closeTag
    rw [if_neg (by omega)]
  · intro rs h tg
    rcases rs with ⟨op, ch, cs, es⟩
    simp only at h
    unfold closeTag
    by_cases hpos : (0 : Int) < op
    · simp only [hpos]
      simp
    · have h0 : op = 0 := le_antisymm (not_lt.mp hpos) h
      subst h0
      rw [if_neg (by simp)]
      simp

theorem C9_tag_counter_witness :
    (0 ≤ (runOps [ROp.opn none none none none, ROp.cls true] initRS).opened ∧
      closeSpanCount (runOps [ROp.opn none none none none, ROp.cls true] initRS).chunks ≤
        openSpanCount (runOps [ROp.opn none none none none, ROp.cls true] initRS).chunks) ∧
    closeTag "span" false initRS = initRS ∧
    closeTag "span" true (RS.mk 2 [] [] []) =
      { RS.mk 2 [] [] [] with
          opened := 0,
          chunks := (RS.mk 2 [] [] []).chunks ++
            List.replicate (RS.mk 2 [] [] []).opened.toNat
              (Chunk.tag ("</" ++ "span" ++ ">")) } :=
  ⟨C9_tag_counter.1 [ROp.opn none none none none, ROp.cls true],
   C9_tag_counter.2.1 initRS rfl "span" false,
   C9_tag_counter.2.2 (RS.mk 2 [] [] []) (by decide) "span"⟩

/-! ### Claims C1, C2 and C3: grid, padding and the plain-text scenario -/

/-- C1 (counterexample to the claim as stated): rendering the empty text
into a pane of size (1, 1) does not produce rows of one column — the
padding of the empty final logical line and the first blank under-fill row
merge into a single physical row of two columns. -/
theorem C1_claim_counterexample :
    ¬ gridOK 1 1 ((render [] 1 1 initRS).chunks) := by
  decide

/-- C1 (amended): for every leaf pane of size `(w, h)` with `w, h ≥ 1` and
every escape-free input text whose wrapped content occupies at most `h`
physical rows, and whose final logical line is non-empty unless the content
already fills exactly `h` rows, the block emitted by `Renderer._render`
contains exactly `h` newline-terminated physical rows, each logically `w`
columns wide. -/
theorem C1_grid_invariant (s : List Char) (w h : Nat) (hw : 1 ≤ w) (hh : 1 ≤ h)
    (hesc : '\x1b' ∉ s)
    (hbound : contentRows w (splitOnChar '\n' s) ≤ h)
    (hlast : (splitOnChar '\n' s).getLast? = some [] →
      contentRows w (splitOnChar '\n' s) = h) :
    gridOK w h ((render s w h initRS).chunks) :=
  render_grid s w h hw hh hesc hbound hlast

theorem C1_grid_invariant_witness :
    gridOK 5 2 ((render ['h', 'i'] 5 2 initRS).chunks) :=
  C1_grid_invariant ['h', 'i'] 5 2 (by decide) (by decide) (by decide) (by decide)
    (by decide)

/-- C2 (counterexample to the claim as stated): the text `"plain"` in a
pane of size (20, 1) occupies the pane's last (and only) physical row and
*is* right-padded with 15 non-selectable spaces — the padding condition
`line_c + nl < size[1]` of `Renderer._render` pads every row up to and
including row `h`. -/
theorem C2_claim_counterexample :
    rowsOf ((render ['p', 'l', 'a', 'i', 'n'] 20 1 initRS).chunks) =
      [['p', 'l', 'a', 'i', 'n'] ++ List.replicate 15 ' ', []] ∧
    Chunk.text (List.replicate 15 ' ') ∈
      (render ['p', 'l', 'a', 'i', 'n'] 20 1 initRS).chunks := by
  refine ⟨?_, ?_⟩ <;> decide

/-- C2 (amended): for every logical line rendered by `Renderer._render`,
styled or not — the padding decision is the tail step of the per-line loop
(`renderTail`), which receives the line's text after the last SGR match,
its running column count, the emitted-row count and the open-tag state —
the line is right-padded with a non-selectable span of exactly `w - rem`
spaces, making its final physical row exactly `w` columns, precisely when
its wrapped content ends on a physical row at or before the pane's last row
(`line_c + nl < h`) and the remainder falls short of the width; a logical
line ending strictly beyond the pane's last row is never right-padded. -/
theorem C2_padding_boundary (w h : Nat) (isLast : Bool) (fg bg : Option PyVal)
    (c0 : List Char) (line_l lc : Nat) (rs : RS)
    (hw : 1 ≤ w) (hop : 0 ≤ rs.opened) :
    renderTail w h isLast fg bg c0 line_l lc rs =
      ((if lc + (wrap_line c0 (line_l + c0.length) w).1.length < h then
          lc + (wrap_line c0 (line_l + c0.length) w).1.length else lc) +
        (if (wrap_line c0 (line_l + c0.length) w).2.2 ≠ [] ∨ isLast = false then 1 else 0),
        { rs with
            opened := 0,
            css := if rs.opened = 0 then openCss fg bg rs.esc rs.css else rs.css,
            chunks := rs.chunks
              ++ (if rs.opened = 0 then [Chunk.tag (openHtml fg bg rs.esc none none)] else [])
              ++ emitSlices (wrap_line c0 (line_l + c0.length) w).1
              ++ [Chunk.text (wrap_line c0 (line_l + c0.length) w).2.2]
              ++ List.replicate (if rs.opened = 0 then 1 else rs.opened.toNat)
                  (Chunk.tag "</span>")
              ++ (if lc + (wrap_line c0 (line_l + c0.length) w).1.length < h ∧
                    w - (wrap_line c0 (line_l + c0.length) w).2.1 ≠ 0 then
                    nsPadChunks rs.esc (w - (wrap_line c0 (line_l + c0.length) w).2.1)
                  else [])
              ++ (if (wrap_line c0 (line_l + c0.length) w).2.2 ≠ [] ∨ isLast = false then
                    [Chunk.text ['\n']] else []) }) ∧
    (wrap_line c0 (line_l + c0.length) w).2.1 +
      (w - (wrap_line c0 (line_l + c0.length) w).2.1) = w := by
  rcases hwl0 : wrap_line c0 (line_l + c0.length) w with ⟨sl, l', rem⟩
  constructor
  · by_cases hk : rs.opened = 0
    · rw [renderTail_spec w h hw isLast fg bg c0 line_l lc rs hk sl l' rem hwl0]
      simp [hk, List.append_assoc]
    · have hpos : (0 : Int) < rs.opened := lt_of_le_of_ne hop (Ne.symm hk)
      have hcond : c0 ≠ [] ∨ c0.length ≠ w := by
        by_cases h0 : c0 = []
        · right; rw [h0]; simp; omega
        · left; exact h0
      by_cases hpad : lc + sl.length < h
      · by_cases hpne : w - l' = 0
        · by_cases hnl : rem ≠ [] ∨ isLast = false
          · simp only [renderTail, hk, hpos, if_pos hcond, hwl0, openTag, closeTag,
              hpad, hpne, hnl, nsPadChunks]
            simp [hpad, hpne, hnl, hk, hpos, List.append_assoc, openCss_none_none]
          · simp only [renderTail, hk, hpos, if_pos hcond, hwl0, openTag, closeTag,
              hpad, hpne, hnl, nsPadChunks]
            simp [hpad, hpne, hnl, hk, hpos, List.append_assoc, openCss_none_none]
        · by_cases hnl : rem ≠ [] ∨ isLast = false
          · simp only [renderTail, hk, hpos, if_pos hcond, hwl0, openTag, closeTag,
              hpad, hpne, hnl, nsPadChunks]
            simp [hpad, hpne, hnl, hk, hpos, List.append_assoc, openCss_none_none]
          · simp only [renderTail, hk, hpos, if_pos hcond, hwl0, openTag, closeTag,
              hpad, hpne, hnl, nsPadChunks]
            simp [hpad, hpne, hnl, hk, hpos, List.append_assoc, openCss_none_none]
      · by_cases hnl : rem ≠ [] ∨ isLast = false
        · simp only [renderTail, hk, hpos, if_pos hcond, hwl0, openTag, closeTag,
            hpad, hnl, nsPadChunks]
          simp [hpad, hnl, hk, hpos, List.append_assoc, openCss_none_none]
        · simp only [renderTail, hk, hpos, if_pos hcond, hwl0, openTag, closeTag,
            hpad, hnl, nsPadChunks]
          simp [hpad, hnl, hk, hpos, List.append_assoc, openCss_none_none]
  · have hle := wrap_line_length_le c0 (line_l + c0.length) w hw
    rw [hwl0] at hle
    have hle2 : l' ≤ w := hle
    show l' + (w - l') = w
    omega

theorem C2_padding_boundary_witness :
    ((renderTail 10 1 true none none ['H', 'I'] 0 0 (RS.mk 1 [] [] [])).2.chunks =
      [Chunk.text ['H', 'I'], Chunk.tag "</span>", Chunk.tag "<span class=\"ns\">",
       Chunk.text (List.replicate 8 ' '), Chunk.tag "</span>", Chunk.text ['\n']]) ∧
    (wrap_line ['H', 'I'] (0 + (['H', 'I'] : List Char).length) 10).2.1 +
      (10 - (wrap_line ['H', 'I'] (0 + (['H', 'I'] : List Char).length) 10).2.1) = 10 := by
  have h := C2_padding_boundary 10 1 true none none ['H', 'I'] 0 0 (RS.mk 1 [] [] [])
    (by decide) (by decide)
  refine ⟨?_, h.2⟩
  rw [h.1]
  decide

/-- C3: rendering the text `"plain"` (no escape sequences) into a pane of
size (20, 1) produces exactly one physical row: the literal text `"plain"`
followed by 15 padding spaces wrapped in the non-selectable `ns` class, and
registers no foreground or background color classes in the stylesheet
registry. -/
theorem C3_plain_scenario :
    (render ['p', 'l', 'a', 'i', 'n'] 20 1 initRS).chunks =
      [Chunk.tag "<pre>", Chunk.tag "<span >", Chunk.text ['p', 'l', 'a', 'i', 'n'],
       Chunk.tag "</span>", Chunk.tag "<span class=\"ns\">",
       Chunk.text (List.replicate 15 ' '), Chunk.tag "</span>", Chunk.text ['\n'],
       Chunk.tag "</pre>"] ∧
    (render ['p', 'l', 'a', 'i', 'n'] 20 1 initRS).css = [] ∧
    rowsOf ((render ['p', 'l', 'a', 'i', 'n'] 20 1 initRS).chunks) =
      [['p', 'l', 'a', 'i', 'n'] ++ List.replicate 15 ' ', []] := by
  refine ⟨?_, ?_, ?_⟩ <;> decide

end Tmux2Html
